/-
Verification of the document-scanner pipeline in `python-worker/processor.py`
(class `SmartImageProcessor`) against its natural-language specification.

Modelling conventions (shallow embedding):
* Pixel coordinates are exact rationals (`ℚ`); the source works with numpy
  `float32` values.  All geometric formulas (differences, dot products,
  squared norms, shoelace areas) are transcribed literally from the source.
* A 4-corner candidate (`corners.reshape(4, 2)` in the source) is the
  structure `Quad` below, so "exactly 4 points" is enforced by the type.
* OpenCV / PIL library primitives that the repository treats as black boxes
  (`cv2.approxPolyDP`, `cv2.findContours`, the CLAHE / contrast / sharpness /
  brightness filters, the byte decoders) are modelled as function parameters;
  a primitive that may raise is given an `Except` / `Option` result type.
* Python exception handling becomes `Except`: a `try` block is a monadic
  computation, an `except` handler a `match` on its result.
-/
import Mathlib

namespace FlamePdf

/-- A 2-D point with rational coordinates, modelling one row of a
`float32` numpy array of shape (4, 2). -/
abbrev Point : Type := ℚ × ℚ

/-- Coordinatewise difference of two points, modelling numpy vector
subtraction such as `v1 = p1 - p2`. -/
def psub (a b : Point) : Point := (a.1 - b.1, a.2 - b.2)

/-- Dot product, modelling `np.dot(v1, v2)`. -/
def dotP (a b : Point) : ℚ := a.1 * b.1 + a.2 * b.2

/-- Squared Euclidean norm, i.e. the square of `np.linalg.norm(v)`. -/
def normSq (a : Point) : ℚ := a.1 ^ 2 + a.2 ^ 2

/-- Multiply both coordinates by a scalar, modelling `corners * ratio`. -/
def pscale (r : ℚ) (a : Point) : Point := (a.1 * r, a.2 * r)

/-- A candidate quadrilateral: exactly 4 points, in detection order
(`corners.reshape(4, 2)` in the source). -/
structure Quad where
  p0 : Point
  p1 : Point
  p2 : Point
  p3 : Point
deriving DecidableEq, Repr

/-- The 4 points of a quadrilateral as a list, in stored order. -/
def quadList (q : Quad) : List Point := [q.p0, q.p1, q.p2, q.p3]

/-- `x + y` of a point: the per-row result of `pts.sum(axis=1)` in
`_order_corners`. -/
def sumXY (p : Point) : ℚ := p.1 + p.2

/-- `y - x` of a point: the per-row result of `np.diff(pts, axis=1)` in
`_order_corners`. -/
def diffYX (p : Point) : ℚ := p.2 - p.1

/-- Helper for `np.argmin` semantics: scan the list keeping the current
best; a later element replaces the best only when strictly smaller, so the
first occurrence of the minimum wins, exactly as `np.argmin` returns the
first index of the minimum. -/
def aminGo (f : Point → ℚ) (best : Point) : List Point → Point
  | [] => best
  | x :: xs => if f x < f best then aminGo f x xs else aminGo f best xs

/-- `pts[np.argmin(map f pts)]` for a nonempty list (empty list: junk). -/
def aminL (f : Point → ℚ) : List Point → Point
  | [] => (0, 0)
  | x :: xs => aminGo f x xs

/-- Helper for `np.argmax` semantics: first occurrence of the maximum. -/
def amaxGo (f : Point → ℚ) (best : Point) : List Point → Point
  | [] => best
  | x :: xs => if f best < f x then amaxGo f x xs else amaxGo f best xs

/-- `pts[np.argmax(map f pts)]` for a nonempty list (empty list: junk). -/
def amaxL (f : Point → ℚ) : List Point → Point
  | [] => (0, 0)
  | x :: xs => amaxGo f x xs

/-- Embedding of `SmartImageProcessor._order_corners`: the returned array
`rect` has `rect[0] = pts[argmin(x+y)]` (top-left),
`rect[1] = pts[argmin(y-x)]` (top-right), `rect[2] = pts[argmax(x+y)]`
(bottom-right), `rect[3] = pts[argmax(y-x)]` (bottom-left). -/
def order_corners (q : Quad) : Quad :=
  { p0 := aminL sumXY (quadList q)
    p1 := aminL diffYX (quadList q)
    p2 := amaxL sumXY (quadList q)
    p3 := amaxL diffYX (quadList q) }

/-- Python `int(np.sqrt(d))` for a nonnegative quantity `d`: the floor of
the real square root, which for rational `d ≥ 0` equals the integer square
root of `⌊d⌋`. -/
def intSqrt (d : ℚ) : ℕ := Nat.sqrt (Int.toNat ⌊d⌋)

/-- The measured integer length of the segment between two corners:
`int(np.sqrt((ax - bx) ** 2 + (ay - by) ** 2))` in
`_transform_perspective`. -/
def edgeLenInt (a b : Point) : ℕ := intSqrt (normSq (psub a b))

/-- Embedding of the output-size computation of
`SmartImageProcessor._transform_perspective` (lines computing `widthA`,
`widthB`, `maxWidth`, `heightA`, `heightB`, `maxHeight`): corners are put
in canonical order `(tl, tr, br, bl)`, each edge length is measured and
truncated to an integer, width/height are the maxima of the opposing edge
pairs, and both are then clamped below by 100. -/
def transform_dims (q : Quad) : ℕ × ℕ :=
  let rect := order_corners q
  let widthA := edgeLenInt rect.p2 rect.p3
  let widthB := edgeLenInt rect.p1 rect.p0
  let heightA := edgeLenInt rect.p1 rect.p2
  let heightB := edgeLenInt rect.p0 rect.p3
  (max (max widthA widthB) 100, max (max heightA heightB) 100)

/- Basic lemmas about the first-minimum / first-maximum scans. -/

theorem aminGo_mem (f : Point → ℚ) (b : Point) (l : List Point) :
    aminGo f b l = b ∨ aminGo f b l ∈ l := by
  induction l generalizing b with
  | nil => simp [aminGo]
  | cons x xs ih =>
    simp only [aminGo]
    by_cases h : f x < f b
    · simp only [h, if_pos]
      rcases ih x with h1 | h1
      · right; simp [h1]
      · right; simp [h1]
    · simp only [h, if_neg, not_false_iff]
      rcases ih b with h1 | h1
      · left; exact h1
      · right; simp [h1]

theorem aminGo_le (f : Point → ℚ) (b : Point) (l : List Point) :
    f (aminGo f b l) ≤ f b ∧ ∀ x ∈ l, f (aminGo f b l) ≤ f x := by
  induction l generalizing b with
  | nil => simp [aminGo]
  | cons x xs ih =>
    simp only [aminGo]
    by_cases h : f x < f b
    · simp only [h, if_pos]
      refine ⟨le_trans (ih x).1 (le_of_lt h), ?_⟩
      intro y hy
      rcases List.mem_cons.mp hy with rfl | hy
      · exact (ih y).1
      · exact (ih x).2 y hy
    · simp only [h, if_neg, not_false_iff]
      refine ⟨(ih b).1, ?_⟩
      intro y hy
      rcases List.mem_cons.mp hy with rfl | hy
      · exact le_trans (ih b).1 (not_lt.mp h)
      · exact (ih b).2 y hy

theorem amaxGo_mem (f : Point → ℚ) (b : Point) (l : List Point) :
    amaxGo f b l = b ∨ amaxGo f b l ∈ l := by
  induction l generalizing b with
  | nil => simp [amaxGo]
  | cons x xs ih =>
    simp only [amaxGo]
    by_cases h : f b < f x
    · simp only [h, if_pos]
      rcases ih x with h1 | h1
      · right; simp [h1]
      · right; simp [h1]
    · simp only [h, if_neg, not_false_iff]
      rcases ih b with h1 | h1
      · left; exact h1
      · right; simp [h1]

theorem amaxGo_ge (f : Point → ℚ) (b : Point) (l : List Point) :
    f b ≤ f (amaxGo f b l) ∧ ∀ x ∈ l, f x ≤ f (amaxGo f b l) := by
  induction l generalizing b with
  | nil => simp [amaxGo]
  | cons x xs ih =>
    simp only [amaxGo]
    by_cases h : f b < f x
    · simp only [h, if_pos]
      refine ⟨le_trans (le_of_lt h) (ih x).1, ?_⟩
      intro y hy
      rcases List.mem_cons.mp hy with rfl | hy
      · exact (ih y).1
      · exact (ih x).2 y hy
    · simp only [h, if_neg, not_false_iff]
      refine ⟨(ih b).1, ?_⟩
      intro y hy
      rcases List.mem_cons.mp hy with rfl | hy
      · exact le_trans (not_lt.mp h) (ih b).1
      · exact (ih b).2 y hy

theorem aminL_mem (f : Point → ℚ) (x : Point) (xs : List Point) :
    aminL f (x :: xs) ∈ x :: xs := by
  simp only [aminL]
  rcases aminGo_mem f x xs with h | h
  · simp [h]
  · simp [h]

theorem aminL_le (f : Point → ℚ) (x : Point) (xs : List Point) :
    ∀ y ∈ x :: xs, f (aminL f (x :: xs)) ≤ f y := by
  intro y hy
  simp only [aminL]
  rcases List.mem_cons.mp hy with rfl | hy
  · exact (aminGo_le f y xs).1
  · exact (aminGo_le f x xs).2 y hy

theorem amaxL_mem (f : Point → ℚ) (x : Point) (xs : List Point) :
    amaxL f (x :: xs) ∈ x :: xs := by
  simp only [amaxL]
  rcases amaxGo_mem f x xs with h | h
  · simp [h]
  · simp [h]

theorem amaxL_ge (f : Point → ℚ) (x : Point) (xs : List Point) :
    ∀ y ∈ x :: xs, f y ≤ f (amaxL f (x :: xs)) := by
  intro y hy
  simp only [amaxL]
  rcases List.mem_cons.mp hy with rfl | hy
  · exact (amaxGo_ge f y xs).1
  · exact (amaxGo_ge f x xs).2 y hy

theorem aminL_spec (f : Point → ℚ) :
    ∀ l : List Point, l ≠ [] →
      aminL f l ∈ l ∧ ∀ y ∈ l, f (aminL f l) ≤ f y
  | [], h => absurd rfl h
  | x :: xs, _ => ⟨aminL_mem f x xs, aminL_le f x xs⟩

theorem amaxL_spec (f : Point → ℚ) :
    ∀ l : List Point, l ≠ [] →
      amaxL f l ∈ l ∧ ∀ y ∈ l, f y ≤ f (amaxL f l)
  | [], h => absurd rfl h
  | x :: xs, _ => ⟨amaxL_mem f x xs, amaxL_ge f x xs⟩

/-- The minimum of `f` over `l` is attained at a unique element: any two
members of `l` that both minimise `f` are equal.  (This is what failure of
an `argmin` tie means.) -/
def uniqueMin (f : Point → ℚ) (l : List Point) : Prop :=
  ∀ a ∈ l, ∀ b ∈ l, (∀ x ∈ l, f a ≤ f x) → (∀ x ∈ l, f b ≤ f x) → a = b

/-- The maximum of `f` over `l` is attained at a unique element. -/
def uniqueMax (f : Point → ℚ) (l : List Point) : Prop :=
  ∀ a ∈ l, ∀ b ∈ l, (∀ x ∈ l, f x ≤ f a) → (∀ x ∈ l, f x ≤ f b) → a = b

theorem aminL_perm (f : Point → ℚ) {l l' : List Point}
    (hp : l'.Perm l) (hu : uniqueMin f l) : aminL f l' = aminL f l := by
  by_cases hnil : l = []
  · subst hnil
    rw [hp.eq_nil]
  · have hnil' : l' ≠ [] := by
      intro h
      subst h
      exact hnil hp.nil_eq.symm
    obtain ⟨hm', hle'⟩ := aminL_spec f l' hnil'
    obtain ⟨hm, hle⟩ := aminL_spec f l hnil
    refine hu _ (hp.mem_iff.mp hm') _ hm ?_ hle
    intro x hx
    exact hle' x (hp.mem_iff.mpr hx)

theorem amaxL_perm (f : Point → ℚ) {l l' : List Point}
    (hp : l'.Perm l) (hu : uniqueMax f l) : amaxL f l' = amaxL f l := by
  by_cases hnil : l = []
  · subst hnil
    rw [hp.eq_nil]
  · have hnil' : l' ≠ [] := by
      intro h
      subst h
      exact hnil hp.nil_eq.symm
    obtain ⟨hm', hge'⟩ := amaxL_spec f l' hnil'
    obtain ⟨hm, hge⟩ := amaxL_spec f l hnil
    refine hu _ (hp.mem_iff.mp hm') _ hm ?_ hge
    intro x hx
    exact hge' x (hp.mem_iff.mpr hx)

/-- `edgeLenInt` does not depend on the direction of the segment. -/
theorem edgeLenInt_comm (a b : Point) : edgeLenInt a b = edgeLenInt b a := by
  unfold edgeLenInt normSq psub
  ring_nf

/-- The spec's formulation of the rectified output width: the integer max
of the measured top-edge (TL–TR) and bottom-edge (BL–BR) lengths, each
floored to at least 100.  (Modelled from the spec's words, to be compared
with the source-side `transform_dims`.) -/
def spec_width (q : Quad) : ℕ :=
  let rect := order_corners q
  max (max (edgeLenInt rect.p0 rect.p1) 100) (max (edgeLenInt rect.p3 rect.p2) 100)

/-- The spec's formulation of the rectified output height: the integer max
of the measured left-edge (TL–BL) and right-edge (TR–BR) lengths, each
floored to at least 100.  (Modelled from the spec's words.) -/
def spec_height (q : Quad) : ℕ :=
  let rect := order_corners q
  max (max (edgeLenInt rect.p0 rect.p3) 100) (max (edgeLenInt rect.p1 rect.p2) 100)

/-- C4: for every 4-point quadrilateral, the Rectifier's output size is
exactly the spec's formula — width is the integer max of the measured
top-edge and bottom-edge lengths, height the integer max of the left-edge
and right-edge lengths, each floored to at least 100 — and consequently
the output is never smaller than 100×100, even for degenerate corners. -/
theorem transform_dims_spec_and_min100 (q : Quad) :
    transform_dims q = (spec_width q, spec_height q) ∧
      100 ≤ (transform_dims q).1 ∧ 100 ≤ (transform_dims q).2 := by
  have hw : edgeLenInt (order_corners q).p1 (order_corners q).p0 =
      edgeLenInt (order_corners q).p0 (order_corners q).p1 := edgeLenInt_comm _ _
  have hb : edgeLenInt (order_corners q).p2 (order_corners q).p3 =
      edgeLenInt (order_corners q).p3 (order_corners q).p2 := edgeLenInt_comm _ _
  have hh : edgeLenInt (order_corners q).p1 (order_corners q).p2 =
      edgeLenInt (order_corners q).p2 (order_corners q).p1 := edgeLenInt_comm _ _
  constructor
  · simp only [transform_dims, spec_width, spec_height, Prod.mk.injEq]
    constructor
    · rw [hw, hb]
      omega
    · rw [hh]
      rw [edgeLenInt_comm (order_corners q).p2 (order_corners q).p1]
      omega
  · simp only [transform_dims]
    omega

/-- C3 (amended): when the four extremal selections are tie-free — the
minimiser and maximiser of `x + y` and of `y − x` over the 4 points are
each unique — the canonical corner ordering, and hence the output
dimensions, depend only on the set of points: any permutation of the same
4 points yields the identical ordered quadruple and identical dimensions. -/
theorem order_corners_perm_invariant (q q' : Quad)
    (hp : (quadList q').Perm (quadList q))
    (h1 : uniqueMin sumXY (quadList q)) (h2 : uniqueMin diffYX (quadList q))
    (h3 : uniqueMax sumXY (quadList q)) (h4 : uniqueMax diffYX (quadList q)) :
    order_corners q' = order_corners q ∧ transform_dims q' = transform_dims q := by
  have hord : order_corners q' = order_corners q := by
    unfold order_corners
    rw [aminL_perm sumXY hp h1, aminL_perm diffYX hp h2,
      amaxL_perm sumXY hp h3, amaxL_perm diffYX hp h4]
  refine ⟨hord, ?_⟩
  unfold transform_dims
  rw [hord]

/-- C3 (counterexample): the claim fails as stated — the two quadruples
below contain the same 4 points (they are permutations of each other), but
ties in the `x + y` and `y − x` extrema make `np.argmin`/`np.argmax` pick
the first occurrence, so the canonical orderings differ. -/
theorem order_corners_tie_counterexample :
    (quadList ⟨(1, 0), (0, 1), (3, 2), (2, 3)⟩).Perm
        (quadList ⟨(0, 1), (1, 0), (2, 3), (3, 2)⟩) ∧
      order_corners ⟨(1, 0), (0, 1), (3, 2), (2, 3)⟩ ≠
        order_corners ⟨(0, 1), (1, 0), (2, 3), (3, 2)⟩ := by
  constructor
  · refine List.Perm.trans (List.Perm.swap _ _ _) ?_
    exact List.Perm.cons _ (List.Perm.cons _ (List.Perm.swap _ _ _))
  · have h1 : order_corners ⟨(1, 0), (0, 1), (3, 2), (2, 3)⟩ =
        ⟨(1, 0), (1, 0), (3, 2), (0, 1)⟩ := by
      norm_num [order_corners, quadList, aminL, amaxL, aminGo, amaxGo,
        sumXY, diffYX]
    have h2 : order_corners ⟨(0, 1), (1, 0), (2, 3), (3, 2)⟩ =
        ⟨(0, 1), (1, 0), (2, 3), (0, 1)⟩ := by
      norm_num [order_corners, quadList, aminL, amaxL, aminGo, amaxGo,
        sumXY, diffYX]
    rw [h1, h2]
    intro h
    have := congrArg Quad.p0 h
    norm_num at this

/-- A strict minimiser makes the minimum tie-free. -/
theorem uniqueMin_of_strict (f : Point → ℚ) (l : List Point) (m : Point)
    (hm : m ∈ l) (hstrict : ∀ x ∈ l, x ≠ m → f m < f x) : uniqueMin f l := by
  intro a ha b hb hamin hbmin
  have haeq : a = m := by
    by_contra hne
    exact absurd (hamin m hm) (not_le.mpr (hstrict a ha hne))
  have hbeq : b = m := by
    by_contra hne
    exact absurd (hbmin m hm) (not_le.mpr (hstrict b hb hne))
  rw [haeq, hbeq]

/-- A strict maximiser makes the maximum tie-free. -/
theorem uniqueMax_of_strict (f : Point → ℚ) (l : List Point) (m : Point)
    (hm : m ∈ l) (hstrict : ∀ x ∈ l, x ≠ m → f x < f m) : uniqueMax f l := by
  intro a ha b hb hamax hbmax
  have haeq : a = m := by
    by_contra hne
    exact absurd (hamax m hm) (not_le.mpr (hstrict a ha hne))
  have hbeq : b = m := by
    by_contra hne
    exact absurd (hbmax m hm) (not_le.mpr (hstrict b hb hne))
  rw [haeq, hbeq]

/-- C3 (witness): a concrete tie-free permutation pair on which the
amended invariance theorem applies. -/
theorem order_corners_perm_invariant_witness :
    order_corners ⟨(5, 1), (0, 0), (1, 5), (7, 6)⟩ =
        order_corners ⟨(0, 0), (5, 1), (7, 6), (1, 5)⟩ ∧
      transform_dims ⟨(5, 1), (0, 0), (1, 5), (7, 6)⟩ =
        transform_dims ⟨(0, 0), (5, 1), (7, 6), (1, 5)⟩ := by
  refine order_corners_perm_invariant ⟨(0, 0), (5, 1), (7, 6), (1, 5)⟩
    ⟨(5, 1), (0, 0), (1, 5), (7, 6)⟩ ?_ ?_ ?_ ?_ ?_
  · refine List.Perm.trans (List.Perm.swap _ _ _) ?_
    exact List.Perm.cons _ (List.Perm.cons _ (List.Perm.swap _ _ _))
  · refine uniqueMin_of_strict sumXY _ (0, 0) (by simp [quadList]) ?_
    intro x hx hne
    simp only [quadList, List.mem_cons, List.not_mem_nil, or_false] at hx
    rcases hx with rfl | rfl | rfl | rfl
    · exact absurd rfl hne
    · norm_num [sumXY]
    · norm_num [sumXY]
    · norm_num [sumXY]
  · refine uniqueMin_of_strict diffYX _ (5, 1) (by simp [quadList]) ?_
    intro x hx hne
    simp only [quadList, List.mem_cons, List.not_mem_nil, or_false] at hx
    rcases hx with rfl | rfl | rfl | rfl
    · norm_num [diffYX]
    · exact absurd rfl hne
    · norm_num [diffYX]
    · norm_num [diffYX]
  · refine uniqueMax_of_strict sumXY _ (7, 6) (by simp [quadList]) ?_
    intro x hx hne
    simp only [quadList, List.mem_cons, List.not_mem_nil, or_false] at hx
    rcases hx with rfl | rfl | rfl | rfl
    · norm_num [sumXY]
    · norm_num [sumXY]
    · exact absurd rfl hne
    · norm_num [sumXY]
  · refine uniqueMax_of_strict diffYX _ (1, 5) (by simp [quadList]) ?_
    intro x hx hne
    simp only [quadList, List.mem_cons, List.not_mem_nil, or_false] at hx
    rcases hx with rfl | rfl | rfl | rfl
    · norm_num [diffYX]
    · norm_num [diffYX]
    · norm_num [diffYX]
    · exact absurd rfl hne

/-- C9: every slot of the canonically ordered quadruple is drawn from the
input points, yet because the four slots are selected independently the
ordered output need not be a permutation of the input: on the concrete
quadruple ((0,5),(1,1),(6,2),(3,9)) the point (3,9) wins both the
bottom-right and bottom-left slots and (0,5) is absent, so the output
counts (3,9) twice while the input contains it once. -/
theorem order_corners_slots_not_permutation :
    (∀ q : Quad, (order_corners q).p0 ∈ quadList q ∧
        (order_corners q).p1 ∈ quadList q ∧
        (order_corners q).p2 ∈ quadList q ∧
        (order_corners q).p3 ∈ quadList q) ∧
      (quadList (order_corners ⟨(0, 5), (1, 1), (6, 2), (3, 9)⟩)).count
          ((3 : ℚ), (9 : ℚ)) = 2 ∧
      (quadList ((⟨(0, 5), (1, 1), (6, 2), (3, 9)⟩ : Quad))).count
          ((3 : ℚ), (9 : ℚ)) = 1 ∧
      ¬ (quadList (order_corners ⟨(0, 5), (1, 1), (6, 2), (3, 9)⟩)).Perm
          (quadList (⟨(0, 5), (1, 1), (6, 2), (3, 9)⟩ : Quad)) := by
  have h9 : order_corners ⟨(0, 5), (1, 1), (6, 2), (3, 9)⟩ =
      ⟨(1, 1), (6, 2), (3, 9), (3, 9)⟩ := by
    norm_num [order_corners, quadList, aminL, amaxL, aminGo, amaxGo,
      sumXY, diffYX]
  have hc2 : (quadList (order_corners ⟨(0, 5), (1, 1), (6, 2), (3, 9)⟩)).count
      ((3 : ℚ), (9 : ℚ)) = 2 := by
    rw [h9]
    norm_num [quadList, List.count_cons]
  have hc1 : (quadList ((⟨(0, 5), (1, 1), (6, 2), (3, 9)⟩ : Quad))).count
      ((3 : ℚ), (9 : ℚ)) = 1 := by
    norm_num [quadList, List.count_cons]
  refine ⟨?_, hc2, hc1, ?_⟩
  · intro q
    have hne : quadList q ≠ [] := by simp [quadList]
    exact ⟨(aminL_spec sumXY (quadList q) hne).1,
      (aminL_spec diffYX (quadList q) hne).1,
      (amaxL_spec sumXY (quadList q) hne).1,
      (amaxL_spec diffYX (quadList q) hne).1⟩
  · intro hperm
    have hmem : ((0 : ℚ), (5 : ℚ)) ∈
        quadList (order_corners ⟨(0, 5), (1, 1), (6, 2), (3, 9)⟩) :=
      hperm.mem_iff.mpr (by simp [quadList])
    rw [h9] at hmem
    simp only [quadList, List.mem_cons, List.not_mem_nil, or_false] at hmem
    norm_num [Prod.ext_iff] at hmem

/-!
### The quadrilateral validator `_is_valid_quadrilateral`

The source computes, at each of the 4 vertices, the angle between the two
edge vectors meeting there:
`angle = degrees(arccos(clip(dot(v1, v2) / (norm(v1) * norm(v2)), -1, 1)))`
and rejects when any `norm` is zero or any `angle ≤ 20` or `angle ≥ 160`.
Because `160 = 180 − 20` and `arccos` is strictly decreasing on `[0°, 180°]`,
`20 < angle < 160` holds iff `|cos angle| < cos 20°`, iff
`dot(v1, v2)² < cos²(20°) · ‖v1‖² · ‖v2‖²` (for nonzero vectors; the `clip`
is inert since `|dot| ≤ ‖v1‖‖v2‖`).  The irrational threshold
`cos²(20°) ≈ 0.883² ≈ 0.780` is modelled as a parameter `csq`; every
theorem assumes only bounds on `csq` (such as `0 < csq < 1`) that the
actual value satisfies.
-/

/-- The two-sided angle bound `20° < angle < 160°` at one vertex,
expressed on squares: `dot(v, w)² < csq · ‖v‖² · ‖w‖²` with
`csq = cos²(20°)`. -/
def angleOK (csq : ℚ) (v w : Point) : Bool :=
  decide (dotP v w ^ 2 < csq * (normSq v * normSq w))

/-- Embedding of `SmartImageProcessor._is_valid_quadrilateral`: all four
edge vectors must be nonzero (else the `norm1 == 0 or norm2 == 0` guard
fires; over exact rationals a zero squared norm is exactly a zero vector),
and the angle test must pass at every vertex.  The source iterates
`i = 0..3` with `v1 = corners[i] - corners[i+1]`,
`v2 = corners[i+2] - corners[i+1]` (indices mod 4); the same eight vectors
appear below. -/
def is_valid_quadrilateral (csq : ℚ) (q : Quad) : Bool :=
  decide (normSq (psub q.p0 q.p1) ≠ 0) && decide (normSq (psub q.p1 q.p2) ≠ 0) &&
    decide (normSq (psub q.p2 q.p3) ≠ 0) && decide (normSq (psub q.p3 q.p0) ≠ 0) &&
    angleOK csq (psub q.p0 q.p1) (psub q.p2 q.p1) &&
    angleOK csq (psub q.p1 q.p2) (psub q.p3 q.p2) &&
    angleOK csq (psub q.p2 q.p3) (psub q.p0 q.p3) &&
    angleOK csq (psub q.p3 q.p0) (psub q.p1 q.p0)

theorem dotP_self (v : Point) : dotP v v = normSq v := by
  simp [dotP, normSq]
  ring

/-- C6: the quadrilateral validator rejects every 4-point set containing
two coincident points — adjacent coincident points give a zero-length edge
vector (the `norm == 0` guard), opposite coincident points make the two
edge vectors at the vertex between them equal, forcing a 0° angle, which
the `angle ≤ 20` bound rejects (any `csq ≤ 1 = cos²(0°)` rejects it; the
source's `cos²(20°) < 1` does). -/
theorem is_valid_quadrilateral_rejects_coincident (csq : ℚ) (hcsq : csq ≤ 1)
    (q : Quad)
    (h : q.p0 = q.p1 ∨ q.p1 = q.p2 ∨ q.p2 = q.p3 ∨ q.p3 = q.p0 ∨
      q.p0 = q.p2 ∨ q.p1 = q.p3) :
    is_valid_quadrilateral csq q = false := by
  rw [Bool.eq_false_iff]
  intro htrue
  simp only [is_valid_quadrilateral, angleOK, Bool.and_eq_true,
    decide_eq_true_eq] at htrue
  obtain ⟨⟨⟨⟨⟨⟨⟨h01, h12⟩, h23⟩, h30⟩, a0⟩, a1⟩, a2⟩, a3⟩ := htrue
  rcases h with h | h | h | h | h | h
  · exact h01 (by rw [h]; simp [psub, normSq])
  · exact h12 (by rw [h]; simp [psub, normSq])
  · exact h23 (by rw [h]; simp [psub, normSq])
  · exact h30 (by rw [h]; simp [psub, normSq])
  · rw [← h, dotP_self] at a0
    nlinarith [a0, hcsq, mul_self_nonneg (normSq (psub q.p0 q.p1))]
  · rw [← h, dotP_self] at a1
    nlinarith [a1, hcsq, mul_self_nonneg (normSq (psub q.p1 q.p2))]

/-- C6 (witness): a concrete quadruple with its first two points
coincident is rejected at the concrete threshold 39/50 ≈ cos²(20°). -/
theorem is_valid_quadrilateral_rejects_coincident_witness :
    is_valid_quadrilateral (39 / 50) ⟨(0, 0), (0, 0), (5, 0), (5, 5)⟩ = false :=
  is_valid_quadrilateral_rejects_coincident (39 / 50) (by norm_num)
    ⟨(0, 0), (0, 0), (5, 0), (5, 5)⟩ (Or.inl rfl)

/-!
### Polygon area (`cv2.contourArea`)

`cv2.contourArea` on a simple polygon returns the absolute value of the
Green/shoelace signed area, `|Σᵢ (xᵢ·yᵢ₊₁ − xᵢ₊₁·yᵢ)| / 2` over the closed
vertex cycle. -/

/-- One shoelace term, `x₁·y₂ − x₂·y₁`. -/
def cross (a b : Point) : ℚ := a.1 * b.2 - b.1 * a.2

/-- Sum of shoelace terms along the rest of the cycle, closing back to
`first`. -/
def shoelaceGo (first prev : Point) : List Point → ℚ
  | [] => cross prev first
  | q :: qs => cross prev q + shoelaceGo first q qs

/-- Signed shoelace sum of a closed polygon given by its vertex list. -/
def shoelace : List Point → ℚ
  | [] => 0
  | p :: ps => shoelaceGo p p ps

/-- `cv2.contourArea`: half the absolute shoelace sum. -/
def polyArea (l : List Point) : ℚ := |shoelace l| / 2

theorem polyArea_nonneg (l : List Point) : 0 ≤ polyArea l := by
  unfold polyArea
  positivity

/-- The bounds test of `_validate_corners` for one corner: the source
rejects when `x < -margin or x > width + margin or y < -margin or
y > height + margin` with `margin = 50`. -/
def cornerInBounds (width height : ℚ) (p : Point) : Bool :=
  !(decide (p.1 < -50) || decide (width + 50 < p.1) ||
    decide (p.2 < -50) || decide (height + 50 < p.2))

/-- Embedding of `SmartImageProcessor._validate_corners` for a 4-point
candidate (the `len(corners) != 4` guard is discharged by the `Quad`
type): every corner must lie within the 50-unit margin of the frame, and
the absolute polygon area ratio must satisfy `0.05 ≤ ratio ≤ 0.98`.
`shape = (height, width)` as in `img.shape`. -/
def validate_corners (q : Quad) (shape : ℕ × ℕ) : Bool :=
  let height : ℚ := shape.1
  let width : ℚ := shape.2
  let area : ℚ := |polyArea (quadList q)|
  let area_ratio : ℚ := area / (height * width)
  cornerInBounds width height q.p0 && cornerInBounds width height q.p1 &&
    cornerInBounds width height q.p2 && cornerInBounds width height q.p3 &&
    !decide (area_ratio < 1 / 20) && !decide ((49 : ℚ) / 50 < area_ratio)

/-- A corner outside the 50-unit margin of a `width × height` frame. -/
def outOfFrame (width height : ℚ) (p : Point) : Prop :=
  p.1 < -50 ∨ width + 50 < p.1 ∨ p.2 < -50 ∨ height + 50 < p.2

theorem validate_corners_eq_true (q : Quad) (h w : ℕ) :
    validate_corners q (h, w) = true ↔
      (¬ outOfFrame w h q.p0 ∧ ¬ outOfFrame w h q.p1 ∧
        ¬ outOfFrame w h q.p2 ∧ ¬ outOfFrame w h q.p3) ∧
      ¬ |polyArea (quadList q)| / ((h : ℚ) * w) < 1 / 20 ∧
      ¬ (49 : ℚ) / 50 < |polyArea (quadList q)| / ((h : ℚ) * w) := by
  simp only [validate_corners, cornerInBounds, outOfFrame, Bool.and_eq_true,
    Bool.not_eq_true', Bool.or_eq_false_iff, decide_eq_false_iff_not, not_or,
    not_lt]
  tauto

/-- C7: the Corner Validator rejects the quadrilateral whose corners are
exactly the frame corners — its area ratio is 1, above the 98% bound —
and, in general, it rejects exactly when some corner lies more than 50
units outside the frame on either axis, or the absolute shoelace area
ratio is below 5% or above 98%. -/
theorem validate_corners_spec (q : Quad) (h w : ℕ) (hh : 0 < h) (hw : 0 < w) :
    (validate_corners ⟨(0, 0), ((w : ℚ), 0), ((w : ℚ), (h : ℚ)), (0, (h : ℚ))⟩
          (h, w) = false ∧
        (49 : ℚ) / 50 <
          |polyArea (quadList
              ⟨(0, 0), ((w : ℚ), 0), ((w : ℚ), (h : ℚ)), (0, (h : ℚ))⟩)| /
            ((h : ℚ) * w)) ∧
      (validate_corners q (h, w) = false ↔
        (outOfFrame w h q.p0 ∨ outOfFrame w h q.p1 ∨
            outOfFrame w h q.p2 ∨ outOfFrame w h q.p3) ∨
          |polyArea (quadList q)| / ((h : ℚ) * w) < 1 / 20 ∨
          (49 : ℚ) / 50 < |polyArea (quadList q)| / ((h : ℚ) * w)) := by
  have hhw : ((h : ℚ) * w) ≠ 0 := by
    have h1 : (0 : ℚ) < (h : ℚ) := by exact_mod_cast hh
    have h2 : (0 : ℚ) < (w : ℚ) := by exact_mod_cast hw
    positivity
  have hs : shoelace (quadList
      ⟨(0, 0), ((w : ℚ), 0), ((w : ℚ), (h : ℚ)), (0, (h : ℚ))⟩) =
      2 * ((h : ℚ) * w) := by
    simp [quadList, shoelace, shoelaceGo, cross]
    ring
  have hratio : |polyArea (quadList
      ⟨(0, 0), ((w : ℚ), 0), ((w : ℚ), (h : ℚ)), (0, (h : ℚ))⟩)| /
      ((h : ℚ) * w) = 1 := by
    have hpos : (0 : ℚ) ≤ (h : ℚ) * w := by positivity
    rw [polyArea, hs, abs_of_nonneg (by positivity),
      abs_of_nonneg (by positivity)]
    field_simp
  refine ⟨⟨?_, ?_⟩, ?_⟩
  · rw [Bool.eq_false_iff]
    intro ht
    rw [validate_corners_eq_true] at ht
    apply ht.2.2
    rw [hratio]
    norm_num
  · rw [hratio]
    norm_num
  · rw [Bool.eq_false_iff, ne_eq, validate_corners_eq_true]
    constructor
    · intro hcon
      by_contra hrhs
      push_neg at hrhs
      exact hcon ⟨⟨hrhs.1.1, hrhs.1.2.1, hrhs.1.2.2.1, hrhs.1.2.2.2⟩,
        not_lt.mpr hrhs.2.1, not_lt.mpr hrhs.2.2⟩
    · intro hrhs hcon
      rcases hrhs with (hb | hb | hb | hb) | hb | hb
      · exact hcon.1.1 hb
      · exact hcon.1.2.1 hb
      · exact hcon.1.2.2.1 hb
      · exact hcon.1.2.2.2 hb
      · exact hcon.2.1 hb
      · exact hcon.2.2 hb

/-- C7 (witness): the full-frame quadrilateral of a 100×100 frame is
rejected, with area ratio above 98%. -/
theorem validate_corners_spec_witness :
    validate_corners
        ⟨(0, 0), (((100 : ℕ) : ℚ), 0), (((100 : ℕ) : ℚ), ((100 : ℕ) : ℚ)),
          (0, ((100 : ℕ) : ℚ))⟩ (100, 100) = false :=
  (validate_corners_spec
      ⟨(0, 0), (((100 : ℕ) : ℚ), 0), (((100 : ℕ) : ℚ), ((100 : ℕ) : ℚ)),
        (0, ((100 : ℕ) : ℚ))⟩ 100 100 (by norm_num) (by norm_num)).1.1

/-!
### The Contour Selector `_find_best_contour`

`cv2.findContours` and `cv2.approxPolyDP` are library primitives.  The
extracted contour list arrives as an `Except` value (extraction may
raise), and the Douglas–Peucker approximation is a parameter
`approx : Contour → ℚ → Except Unit (List Point)` taking the contour and
the epsilon *factor* (the source multiplies the factor by the perimeter;
the perimeter, an irrational length, is folded into the oracle) and
possibly raising.  The body of `_find_best_contour` is wrapped in
`try/except` returning `None`: `find_best_contour_raw` below is the `try`
body with faults propagated, `find_best_contour` the caught version. -/

/-- A contour: the ordered vertex list handed back by `cv2.findContours`. -/
abbrev Contour : Type := List Point

/-- `cv2.arcLength(contour, True) == 0`: the closed perimeter is zero iff
every vertex coincides with the first. -/
def periZero : Contour → Bool
  | [] => true
  | p :: ps => ps.all (fun v => decide (v = p))

/-- The epsilon factors `[0.02, 0.03, 0.04, 0.05, 0.06]` swept by the
source. -/
def epsFactors : List ℚ := [1 / 50, 3 / 100, 1 / 25, 1 / 20, 3 / 50]

/-- `len(approx) == 4` followed by `approx.reshape(4, 2)`. -/
def listToQuad : List Point → Option Quad
  | [a, b, c, d] => some ⟨a, b, c, d⟩
  | _ => none

/-- `corners = corners * ratio`: scale all 4 points back to original
resolution. -/
def scaleQuad (ratio : ℚ) (q : Quad) : Quad :=
  ⟨pscale ratio q.p0, pscale ratio q.p1, pscale ratio q.p2, pscale ratio q.p3⟩

/-- The inner epsilon sweep of `_find_best_contour`: for each factor,
approximate; if the approximation has exactly 4 vertices, scale by
`ratio` and validate; return on the first valid quadrilateral. -/
def tryFactors (approx : Contour → ℚ → Except Unit (List Point))
    (ratio csq : ℚ) (cont : Contour) : List ℚ → Except Unit (Option Quad)
  | [] => Except.ok none
  | f :: fs =>
    match approx cont f with
    | Except.error e => Except.error e
    | Except.ok pts =>
      match listToQuad pts with
      | some q0 =>
        if is_valid_quadrilateral csq (scaleQuad ratio q0) then
          Except.ok (some (scaleQuad ratio q0))
        else tryFactors approx ratio csq cont fs
      | none => tryFactors approx ratio csq cont fs

/-- The contour loop of `_find_best_contour`: skip contours with fewer
than 4 vertices, with area below 5% or above 98% of the working frame
area, or with zero perimeter; otherwise run the epsilon sweep and return
its first success. -/
def tryContours (approx : Contour → ℚ → Except Unit (List Point))
    (ratio csq imgArea : ℚ) : List Contour → Except Unit (Option Quad)
  | [] => Except.ok none
  | cont :: rest =>
    if cont.length < 4 then tryContours approx ratio csq imgArea rest
    else if polyArea cont < 1 / 20 * imgArea then
      tryContours approx ratio csq imgArea rest
    else if (49 : ℚ) / 50 * imgArea < polyArea cont then
      tryContours approx ratio csq imgArea rest
    else if periZero cont then tryContours approx ratio csq imgArea rest
    else
      match tryFactors approx ratio csq cont epsFactors with
      | Except.error e => Except.error e
      | Except.ok (some q) => Except.ok (some q)
      | Except.ok none => tryContours approx ratio csq imgArea rest

/-- The `try` body of `_find_best_contour` with faults propagated:
extract contours (may raise), return `none` on an empty list, sort by
descending area (Python's stable `sorted` with `reverse=True`), keep the
top 15, and loop.  `shape = (height, width)` of the working frame. -/
def find_best_contour_raw (approx : Contour → ℚ → Except Unit (List Point))
    (contoursE : Except Unit (List Contour)) (shape : ℕ × ℕ)
    (ratio csq : ℚ) : Except Unit (Option Quad) :=
  match contoursE with
  | Except.error e => Except.error e
  | Except.ok contours =>
    if contours.isEmpty then Except.ok none
    else
      tryContours approx ratio csq ((shape.1 : ℚ) * shape.2)
        ((contours.mergeSort fun a b => decide (polyArea b ≤ polyArea a)).take 15)

/-- `_find_best_contour` with its enclosing `except Exception: return
None` handler. -/
def find_best_contour (approx : Contour → ℚ → Except Unit (List Point))
    (contoursE : Except Unit (List Contour)) (shape : ℕ × ℕ)
    (ratio csq : ℚ) : Option Quad :=
  match find_best_contour_raw approx contoursE shape ratio csq with
  | Except.ok r => r
  | Except.error _ => none

/-- C10: the Contour Selector is total (it returns an `Option`, never a
fault), and it returns `none` exactly when its `try` body either raised —
the `except` handler maps every internal fault to `none` — or exhausted
the search; a selector fault is therefore observationally identical to an
exhausted search at the Scanner interface. -/
theorem find_best_contour_fault_is_none
    (approx : Contour → ℚ → Except Unit (List Point))
    (contoursE : Except Unit (List Contour)) (shape : ℕ × ℕ)
    (ratio csq : ℚ) :
    find_best_contour approx contoursE shape ratio csq = none ↔
      (∃ e, find_best_contour_raw approx contoursE shape ratio csq =
          Except.error e) ∨
        find_best_contour_raw approx contoursE shape ratio csq =
          Except.ok none := by
  unfold find_best_contour
  cases hraw : find_best_contour_raw approx contoursE shape ratio csq with
  | error e => simp
  | ok r => simp

theorem tryFactors_ok_some (approx : Contour → ℚ → Except Unit (List Point))
    (ratio csq : ℚ) (cont : Contour) :
    ∀ fs q, tryFactors approx ratio csq cont fs = Except.ok (some q) →
      is_valid_quadrilateral csq q = true := by
  intro fs
  induction fs with
  | nil =>
    intro q hq
    simp [tryFactors] at hq
  | cons f fs ih =>
    intro q hq
    simp only [tryFactors] at hq
    cases happ : approx cont f with
    | error e =>
      rw [happ] at hq
      exact absurd hq (by simp)
    | ok pts =>
      rw [happ] at hq
      dsimp only at hq
      cases hlq : listToQuad pts with
      | some q0 =>
        rw [hlq] at hq
        dsimp only at hq
        by_cases hv : is_valid_quadrilateral csq (scaleQuad ratio q0) = true
        · rw [if_pos hv] at hq
          obtain rfl : scaleQuad ratio q0 = q := by
            simpa using hq
          exact hv
        · rw [if_neg hv] at hq
          exact ih q hq
      | none =>
        rw [hlq] at hq
        dsimp only at hq
        exact ih q hq

theorem tryContours_ok_some (approx : Contour → ℚ → Except Unit (List Point))
    (ratio csq imgArea : ℚ) :
    ∀ l q, tryContours approx ratio csq imgArea l = Except.ok (some q) →
      is_valid_quadrilateral csq q = true ∧
        ∃ cont ∈ l, 1 / 20 * imgArea ≤ polyArea cont ∧
          polyArea cont ≤ (49 : ℚ) / 50 * imgArea := by
  intro l
  induction l with
  | nil =>
    intro q hq
    simp [tryContours] at hq
  | cons cont rest ih =>
    intro q hq
    simp only [tryContours] at hq
    by_cases h1 : cont.length < 4
    · rw [if_pos h1] at hq
      obtain ⟨hval, c, hc, hbounds⟩ := ih q hq
      exact ⟨hval, c, List.mem_cons_of_mem _ hc, hbounds⟩
    · rw [if_neg h1] at hq
      by_cases h2 : polyArea cont < 1 / 20 * imgArea
      · rw [if_pos h2] at hq
        obtain ⟨hval, c, hc, hbounds⟩ := ih q hq
        exact ⟨hval, c, List.mem_cons_of_mem _ hc, hbounds⟩
      · rw [if_neg h2] at hq
        by_cases h3 : (49 : ℚ) / 50 * imgArea < polyArea cont
        · rw [if_pos h3] at hq
          obtain ⟨hval, c, hc, hbounds⟩ := ih q hq
          exact ⟨hval, c, List.mem_cons_of_mem _ hc, hbounds⟩
        · rw [if_neg h3] at hq
          by_cases h4 : periZero cont = true
          · rw [if_pos h4] at hq
            obtain ⟨hval, c, hc, hbounds⟩ := ih q hq
            exact ⟨hval, c, List.mem_cons_of_mem _ hc, hbounds⟩
          · rw [if_neg h4] at hq
            cases htf : tryFactors approx ratio csq cont epsFactors with
            | error e =>
              rw [htf] at hq
              exact absurd hq (by simp)
            | ok r =>
              rw [htf] at hq
              cases r with
              | some q1 =>
                obtain rfl : q1 = q := by simpa using hq
                exact ⟨tryFactors_ok_some approx ratio csq cont epsFactors q1 htf,
                  cont, List.mem_cons_self _ _,
                  not_lt.mp h2, not_lt.mp h3⟩
              | none =>
                obtain ⟨hval, c, hc, hbounds⟩ := ih q hq
                exact ⟨hval, c, List.mem_cons_of_mem _ hc, hbounds⟩

/-- C5 (amended): every quadrilateral returned by the Contour Selector
has exactly 4 points (by the `Quad` type) and passes the geometric
validator — nonzero edges and every vertex angle strictly between 20° and
160° — and the *source contour* it was approximated from has enclosed
area within [5%, 98%] of the working frame area.  (The area bound is a
property of the contour, not of the returned quadrilateral; see the
counterexample.) -/
theorem find_best_contour_candidate_props
    (approx : Contour → ℚ → Except Unit (List Point))
    (contoursE : Except Unit (List Contour)) (shape : ℕ × ℕ)
    (ratio csq : ℚ) (q : Quad)
    (hfind : find_best_contour approx contoursE shape ratio csq = some q) :
    is_valid_quadrilateral csq q = true ∧
      ∃ contours, contoursE = Except.ok contours ∧
        ∃ cont ∈ contours,
          1 / 20 * ((shape.1 : ℚ) * shape.2) ≤ polyArea cont ∧
            polyArea cont ≤ (49 : ℚ) / 50 * ((shape.1 : ℚ) * shape.2) := by
  unfold find_best_contour at hfind
  cases hraw : find_best_contour_raw approx contoursE shape ratio csq with
  | error e =>
    rw [hraw] at hfind
    exact absurd hfind (by simp)
  | ok r =>
    rw [hraw] at hfind
    simp only at hfind
    subst hfind
    unfold find_best_contour_raw at hraw
    cases contoursE with
    | error e => exact absurd hraw (by simp)
    | ok contours =>
      simp only at hraw
      by_cases hemp : contours.isEmpty
      · rw [if_pos hemp] at hraw
        exact absurd hraw (by simp)
      · rw [if_neg hemp] at hraw
        obtain ⟨hval, c, hc, hbounds⟩ :=
          tryContours_ok_some approx ratio csq _ _ q hraw
        refine ⟨hval, contours, rfl, c, ?_, hbounds⟩
        have hc1 : c ∈ contours.mergeSort
            fun a b => decide (polyArea b ≤ polyArea a) :=
          List.take_subset _ _ hc
        exact (List.mergeSort_perm contours _).mem_iff.mp hc1

/-!
### A concrete selector run

A 100×100 working frame (`ratio = 1`, so detection happens at original
resolution) holds a pentagon contour — the full frame with a shallow dent
`(50, 96)` in its top edge — of area 9800, exactly 98% of the frame.  The
contour passes the selector's area filter (`area > img_area * 0.98` is
false at equality).  The approximation oracle drops the dent vertex
(deviation 4 ≤ ε = 0.02 × perimeter ≈ 8, a Douglas–Peucker-plausible
simplification) and returns the four frame corners, whose quadrilateral
has area 10000 — 100% of the frame. -/

theorem quad_full_valid :
    is_valid_quadrilateral (39 / 50)
      (scaleQuad 1 ⟨(0, 0), (100, 0), (100, 100), (0, 100)⟩) = true := by
  simp only [is_valid_quadrilateral, angleOK, scaleQuad, pscale,
    Bool.and_eq_true, decide_eq_true_eq]
  norm_num [psub, normSq, dotP]

theorem pent_area :
    polyArea [((0 : ℚ), (0 : ℚ)), (100, 0), (100, 100), (50, 96), (0, 100)] =
      9800 := by
  rw [polyArea,
    show shoelace [((0 : ℚ), (0 : ℚ)), (100, 0), (100, 100), (50, 96),
        (0, 100)] = 19600 from by norm_num [shoelace, shoelaceGo, cross],
    abs_of_nonneg (by norm_num : (0 : ℚ) ≤ 19600)]
  norm_num

theorem find_run_concrete :
    find_best_contour (fun _ _ => Except.ok [(0, 0), (100, 0), (100, 100), (0, 100)])
        (Except.ok [[((0 : ℚ), (0 : ℚ)), (100, 0), (100, 100), (50, 96), (0, 100)]])
        (100, 100) 1 (39 / 50) =
      some ⟨(0, 0), (100, 0), (100, 100), (0, 100)⟩ := by
  have htf : tryFactors
      (fun _ _ => Except.ok [(0, 0), (100, 0), (100, 100), (0, 100)]) 1 (39 / 50)
      [((0 : ℚ), (0 : ℚ)), (100, 0), (100, 100), (50, 96), (0, 100)] epsFactors =
      Except.ok (some ⟨(0, 0), (100, 0), (100, 100), (0, 100)⟩) := by
    simp only [epsFactors, tryFactors, listToQuad]
    rw [if_pos quad_full_valid]
    norm_num [scaleQuad, pscale]
  have htc : tryContours
      (fun _ _ => Except.ok [(0, 0), (100, 0), (100, 100), (0, 100)]) 1 (39 / 50)
      ((((100, 100) : ℕ × ℕ).1 : ℚ) * (((100, 100) : ℕ × ℕ).2 : ℚ))
      [[((0 : ℚ), (0 : ℚ)), (100, 0), (100, 100), (50, 96), (0, 100)]] =
      Except.ok (some ⟨(0, 0), (100, 0), (100, 100), (0, 100)⟩) := by
    simp only [tryContours]
    rw [if_neg (by norm_num : ¬ (List.length
        [((0 : ℚ), (0 : ℚ)), (100, 0), (100, 100), (50, 96), (0, 100)] < 4))]
    rw [if_neg (by rw [pent_area]; norm_num)]
    rw [if_neg (by rw [pent_area]; norm_num)]
    rw [if_neg (by norm_num [periZero, Prod.ext_iff])]
    rw [htf]
  have hraw : find_best_contour_raw
      (fun _ _ => Except.ok [(0, 0), (100, 0), (100, 100), (0, 100)])
      (Except.ok [[((0 : ℚ), (0 : ℚ)), (100, 0), (100, 100), (50, 96), (0, 100)]])
      (100, 100) 1 (39 / 50) =
      Except.ok (some ⟨(0, 0), (100, 0), (100, 100), (0, 100)⟩) := by
    unfold find_best_contour_raw
    dsimp only
    rw [if_neg (by simp)]
    rw [List.mergeSort_singleton,
      show List.take 15 [[((0 : ℚ), (0 : ℚ)), (100, 0), (100, 100), (50, 96),
          (0, 100)]] = [[((0 : ℚ), (0 : ℚ)), (100, 0), (100, 100), (50, 96),
          (0, 100)]] from by simp]
    exact htc
  unfold find_best_contour
  rw [hraw]

/-- C5 (counterexample): the selector returns this full-frame
quadrilateral even though its enclosed area is 100% of the working frame
— above the claimed 98% bound.  The area filter is applied to the source
contour (here a pentagon of area exactly 98%), not to the returned
4-point approximation. -/
theorem find_best_contour_area_counterexample :
    find_best_contour (fun _ _ => Except.ok [(0, 0), (100, 0), (100, 100), (0, 100)])
        (Except.ok [[((0 : ℚ), (0 : ℚ)), (100, 0), (100, 100), (50, 96), (0, 100)]])
        (100, 100) 1 (39 / 50) =
      some ⟨(0, 0), (100, 0), (100, 100), (0, 100)⟩ ∧
    (49 : ℚ) / 50 * (100 * 100) <
      polyArea (quadList ⟨(0, 0), (100, 0), (100, 100), (0, 100)⟩) := by
  refine ⟨find_run_concrete, ?_⟩
  rw [show polyArea (quadList ⟨(0, 0), (100, 0), (100, 100), (0, 100)⟩) =
      10000 from by
    rw [polyArea, show shoelace (quadList
        ⟨(0, 0), (100, 0), (100, 100), (0, 100)⟩) = 20000 from by
      norm_num [quadList, shoelace, shoelaceGo, cross],
      abs_of_nonneg (by norm_num : (0 : ℚ) ≤ 20000)]
    norm_num]
  norm_num

/-- C5 (witness): the amended theorem applied to the concrete selector
run above. -/
theorem find_best_contour_candidate_props_witness :
    is_valid_quadrilateral (39 / 50) ⟨(0, 0), (100, 0), (100, 100), (0, 100)⟩ = true ∧
      ∃ contours, (Except.ok
            [[((0 : ℚ), (0 : ℚ)), (100, 0), (100, 100), (50, 96), (0, 100)]] :
            Except Unit (List Contour)) = Except.ok contours ∧
        ∃ cont ∈ contours,
          1 / 20 * ((((100, 100) : ℕ × ℕ).1 : ℚ) * (((100, 100) : ℕ × ℕ).2 : ℚ)) ≤
              polyArea cont ∧
            polyArea cont ≤
              (49 : ℚ) / 50 *
                ((((100, 100) : ℕ × ℕ).1 : ℚ) * (((100, 100) : ℕ × ℕ).2 : ℚ)) :=
  find_best_contour_candidate_props _ _ _ _ _ _ find_run_concrete

/-!
### The Quality Enhancer `_enhance_quality` / `_enhance_quality_aggressive`

Both enhancers are a straight-line chain of library filter stages (CLAHE
on the L channel, then contrast, sharpness and brightness gains; the
aggressive variant inserts a denoise stage after CLAHE), wrapped in a
single `try/except` whose handler returns `img` — the function's original
input — not the intermediate buffer entering the failing stage.  Each
stage is a parameter `Buf → Option Buf`, `none` modelling a raised
fault. -/

/-- Embedding of `SmartImageProcessor._enhance_quality`: run the stage
chain; if any stage faults, the single `except` handler returns the
original input `img`. -/
def enhance_quality {Buf : Type}
    (clahe contrast sharpen brighten toBGR : Buf → Option Buf) (img : Buf) :
    Buf :=
  match ((((clahe img).bind contrast).bind sharpen).bind brighten).bind toBGR with
  | some result => result
  | none => img

/-- Embedding of `SmartImageProcessor._enhance_quality_aggressive`: same
chain with a denoise stage after CLAHE and stronger gains (the gain
values live inside the opaque stage functions). -/
def enhance_quality_aggressive {Buf : Type}
    (clahe denoise contrast sharpen brighten toBGR : Buf → Option Buf)
    (img : Buf) : Buf :=
  match (((((clahe img).bind denoise).bind contrast).bind sharpen).bind
      brighten).bind toBGR with
  | some result => result
  | none => img

/-- C8 (counterexample): with a CLAHE stage that maps buffer 0 to buffer
1 and a contrast stage that faults, the standard enhancer returns 0 — its
original input — while the buffer entering the failing stage (the
pre-stage buffer) is 1.  The claim that the pre-stage buffer is returned
is false; the enhancer rewinds to its pre-enhancement input. -/
theorem enhance_quality_prestage_counterexample :
    enhance_quality (fun n => some (n + 1)) (fun _ => none) some some some
        (0 : ℕ) = 0 ∧
      (fun n : ℕ => some (n + 1)) 0 = some 1 ∧ (0 : ℕ) ≠ 1 :=
  ⟨rfl, rfl, by norm_num⟩

/-- C8 (amended): if any stage of either enhancer variant faults, the
enhancer returns its original (pre-enhancement) input buffer unchanged. -/
theorem enhance_quality_fault_returns_input {Buf : Type}
    (clahe denoise contrast sharpen brighten toBGR : Buf → Option Buf)
    (img : Buf) :
    (((((clahe img).bind contrast).bind sharpen).bind brighten).bind toBGR =
        none →
      enhance_quality clahe contrast sharpen brighten toBGR img = img) ∧
    ((((((clahe img).bind denoise).bind contrast).bind sharpen).bind
          brighten).bind toBGR = none →
      enhance_quality_aggressive clahe denoise contrast sharpen brighten toBGR
        img = img) := by
  constructor
  · intro hfault
    unfold enhance_quality
    rw [hfault]
  · intro hfault
    unfold enhance_quality_aggressive
    rw [hfault]

/-- C8 (witness): the amended theorem applied to a concrete faulting
chain. -/
theorem enhance_quality_fault_returns_input_witness :
    enhance_quality (fun n => some (n + 1)) (fun _ => none) some some some
      (5 : ℕ) = 5 :=
  (enhance_quality_fault_returns_input (fun n => some (n + 1)) some
    (fun _ => none) some some some 5).1 rfl

/-!
### The top level `SmartImageProcessor.process`

Components are the fields of `PipelineEnv`.  The helpers with their own
catch-all handlers (`_validate_corners`, `_transform_perspective`,
`_enhance_quality`, `_enhance_quality_aggressive`, `_find_best_contour`)
never raise, so they are total functions; `_find_document_corners_multi_strategy`
runs library preprocessing outside any handler and may raise, as may the
`Image.fromarray(cv2.cvtColor(...))` conversion, so both are `Except`
valued.  `cv2.imdecode` returns `none` on undecodable bytes (the source
then raises `ValueError`, caught by the outer handler); the handler
re-decodes via `Image.open(...).convert("RGB")`, modelled by `pilDecode`,
whose own failure is the only fault that escapes `process`. -/

structure PipelineEnv (Bytes Frame Img : Type) where
  imdecode : Bytes → Option Frame
  scan : Frame → Except Unit (Option Quad)
  validate : Quad → Frame → Bool
  transform : Frame → Quad → Frame
  enhance : Frame → Frame
  enhanceAgg : Frame → Frame
  convert : Frame → Except Unit Img
  pilDecode : Bytes → Option Img

/-- The `try` body of `process`: decode, scan, validate, then either the
rectify + standard-enhance path (`transformed = true`) or the
aggressive-enhance fallback on the original frame (`transformed =
false`). -/
def processTry {Bytes Frame Img : Type} (env : PipelineEnv Bytes Frame Img)
    (b : Bytes) : Except Unit (Img × Bool) :=
  match env.imdecode b with
  | none => Except.error ()
  | some img =>
    match env.scan img with
    | Except.error e => Except.error e
    | Except.ok (some corners) =>
      if env.validate corners img then
        match env.convert (env.enhance (env.transform img corners)) with
        | Except.error e => Except.error e
        | Except.ok result => Except.ok (result, true)
      else
        match env.convert (env.enhanceAgg img) with
        | Except.error e => Except.error e
        | Except.ok result => Except.ok (result, false)
    | Except.ok none =>
      match env.convert (env.enhanceAgg img) with
      | Except.error e => Except.error e
      | Except.ok result => Except.ok (result, false)

/-- `process` with its outer `except Exception` handler: any fault in the
`try` body falls back to returning the PIL-decoded original with
`transformed = false`; if that decode also fails, the exception escapes
to the caller (`Except.error`). -/
def process {Bytes Frame Img : Type} (env : PipelineEnv Bytes Frame Img)
    (b : Bytes) : Except Unit (Img × Bool) :=
  match processTry env b with
  | Except.ok r => Except.ok r
  | Except.error _ =>
    match env.pilDecode b with
    | some pil => Except.ok (pil, false)
    | none => Except.error ()

/-- C1: if the input bytes decode to a well-formed image (the handler's
PIL decode succeeds), `process` returns a result — no fault in any
internal stage can escape; and conversely an escaping fault implies the
bytes are undecodable. -/
theorem process_total_unless_decode_fails {Bytes Frame Img : Type}
    (env : PipelineEnv Bytes Frame Img) (b : Bytes) :
    ((∃ i, env.pilDecode b = some i) →
        ∃ r, process env b = Except.ok r) ∧
      (∀ e, process env b = Except.error e → env.pilDecode b = none) := by
  constructor
  · rintro ⟨i, hi⟩
    unfold process
    cases htry : processTry env b with
    | ok r => exact ⟨r, rfl⟩
    | error e =>
      dsimp only
      rw [hi]
      exact ⟨(i, false), rfl⟩
  · intro e he
    unfold process at he
    cases htry : processTry env b with
    | ok r =>
      rw [htry] at he
      exact absurd he (by simp)
    | error e2 =>
      rw [htry] at he
      dsimp only at he
      cases hpd : env.pilDecode b with
      | some i =>
        rw [hpd] at he
        exact absurd he (by simp)
      | none => rfl

/-- A concrete pipeline environment over `ℕ` buffers used by the
witnesses: both decoders succeed, the scanner finds nothing, and no stage
faults. -/
def envNat : PipelineEnv ℕ ℕ ℕ where
  imdecode := fun _ => some 0
  scan := fun _ => Except.ok none
  validate := fun _ _ => true
  transform := fun f _ => f
  enhance := fun f => f
  enhanceAgg := fun f => f
  convert := fun f => Except.ok f
  pilDecode := fun _ => some 7

/-- C1 (witness): on the concrete environment, `process` returns a
result. -/
theorem process_total_unless_decode_fails_witness :
    ∃ r, process envNat 0 = Except.ok r :=
  (process_total_unless_decode_fails envNat 0).1 ⟨7, rfl⟩

/-- C2: for a decodable frame, when no stage faults (the scan returns
without raising and conversion is total), `process` returns
`transformed = true` — with the rectified, standard-enhanced frame —
exactly when the Scanner found a quadrilateral and the Corner Validator
accepted it; in every other case it returns the aggressively enhanced
original frame with `transformed = false`. -/
theorem process_transformed_iff {Bytes Frame Img : Type}
    (env : PipelineEnv Bytes Frame Img) (b : Bytes) (img : Frame)
    (copt : Option Quad) (conv : Frame → Img)
    (hdec : env.imdecode b = some img)
    (hscan : env.scan img = Except.ok copt)
    (hconv : env.convert = fun f => Except.ok (conv f)) :
    (∀ cs, copt = some cs → env.validate cs img = true →
        process env b =
          Except.ok (conv (env.enhance (env.transform img cs)), true)) ∧
      (∀ cs, copt = some cs → env.validate cs img = false →
          process env b = Except.ok (conv (env.enhanceAgg img), false)) ∧
      (copt = none →
        process env b = Except.ok (conv (env.enhanceAgg img), false)) := by
  refine ⟨?_, ?_, ?_⟩
  · intro cs hcs hv
    subst hcs
    unfold process processTry
    rw [hdec]
    dsimp only
    rw [hscan]
    dsimp only
    rw [if_pos hv, hconv]
  · intro cs hcs hv
    subst hcs
    unfold process processTry
    rw [hdec]
    dsimp only
    rw [hscan]
    dsimp only
    rw [if_neg (by simp [hv]), hconv]
  · intro hcs
    subst hcs
    unfold process processTry
    rw [hdec]
    dsimp only
    rw [hscan]
    dsimp only
    rw [hconv]

/-- C2 (witness): on the concrete environment (scanner finds nothing),
`process` takes the aggressive fallback with `transformed = false`. -/
theorem process_transformed_iff_witness :
    process envNat 0 = Except.ok (0, false) :=
  (process_transformed_iff envNat 0 0 none (fun f => f) rfl rfl rfl).2.2 rfl

end FlamePdf
